import Mathlib

/-!
Verification of the nipa reconciliation loops: a shallow embedding of
`contest/results-fetcher.py` and `pw_poller.py`, with theorems settling the
specification's claims about the seen-state tracker, the retry ledger, the
poll-window scheduler, error containment and the atomic publish step.
-/

set_option autoImplicit false

namespace Nipa

/-! ## Embedding of `contest/results-fetcher.py` -/

/-- One manifest entry (a "run"): a branch key and an optional artifact URL.
Python's falsy check `not run['url']` conflates `null`, a missing key and the
empty string; all are modelled as `none`. -/
structure Entry where
  branch : String
  url : Option String
  deriving DecidableEq, Repr

/-- `os.path.basename`: the part of the path after the last slash. -/
def basename (s : String) : String :=
  ⟨s.data.foldl (fun acc c => if c = '/' then [] else acc ++ [c]) []⟩

/-- Python set insertion on a list model: add the element if absent. -/
def addSet (x : String) (l : List String) : List String :=
  if x ∈ l then l else x :: l

/-- Per-source seen state: `seen` (complete, artifact fetched and on disk) and
`wip` (work in progress, no artifact yet), as built by `build_seen`. -/
structure SeenState where
  seen : List String
  wip : List String
  deriving DecidableEq, Repr

/-- One iteration of the `for entry in results` loop of `build_seen`:
no URL puts the branch in `wip`; a URL whose file exists on disk puts the
branch in `seen`; a URL whose file is missing changes nothing. -/
def build_seen_step (files : List String) (st : SeenState) (entry : Entry) : SeenState :=
  match entry.url with
  | none => { st with wip := addSet entry.branch st.wip }
  | some u =>
    if basename u ∈ files then { st with seen := addSet entry.branch st.seen }
    else st

/-- `build_seen` for one source: a missing snapshot file (`none`) yields empty
sets; otherwise fold the snapshot's entries. -/
def build_seen (snap : Option (List Entry)) (files : List String) : SeenState :=
  match snap with
  | none => ⟨[], []⟩
  | some results => results.foldl (build_seen_step files) ⟨[], []⟩

/-- The local filesystem state of one source's snapshot directory: the content
of `results.json` (if present) and the basenames of artifact files on disk. -/
structure RemoteFS where
  snapshot : Option (List Entry)
  files : List String
  deriving DecidableEq, Repr

/-- Outcome of `requests.get` plus `json.loads` on a source's manifest URL:
a raised network error, a JSON decode error, or a decoded manifest. -/
inductive FetchOutcome where
  | netError
  | parseError
  | ok (manifest : List Entry)
  deriving DecidableEq, Repr

/-- Outcome of `requests.get` plus `json.loads` on one artifact URL inside
`fetch_remote_run`: a raised network error, a JSON decode error on the
artifact body, or a clean decode. Neither call is wrapped in a try/except. -/
inductive RunOutcome where
  | netError
  | parseError
  | ok
  deriving DecidableEq, Repr

/-- One source together with its local state, this cycle's manifest fetch
outcome, and the outcome of fetching and decoding each artifact URL. -/
structure Remote where
  fs : RemoteFS
  outcome : FetchOutcome
  artifact : String → RunOutcome

/-- `fetch_remote_run`: fetch one artifact URL and decode its body. A network
or decode error propagates (nothing is written); on success the artifact file,
named by the URL's basename, is written into the snapshot directory. -/
def fetch_remote_run (art : String → RunOutcome) (u : String) (files : List String) :
    Except Unit (List String) :=
  match art u with
  | .netError => .error ()
  | .parseError => .error ()
  | .ok => .ok (addSet (basename u) files)

/-- The `for run in manifest` loop of `fetch_remote`, threading the process
dirty flag (`fetcher.fetched`), the artifact files on disk, and the list of
branches whose artifact fetch was invoked. A branch already in `seen` is
skipped; one without a URL only raises the dirty flag when newly observed;
otherwise `fetch_remote_run` is invoked, whose uncaught errors abort the
whole loop (modelled as `Except.error`). -/
def fetch_remote_entries (st : SeenState) (art : String → RunOutcome) :
    Bool → List String → List String → List Entry →
      Except Unit (Bool × List String × List String)
  | d, files, fetched, [] => .ok (d, files, fetched)
  | d, files, fetched, run :: rest =>
    if run.branch ∈ st.seen then
      fetch_remote_entries st art d files fetched rest
    else
      match run.url with
      | none =>
        fetch_remote_entries st art (d || !(decide (run.branch ∈ st.wip))) files fetched rest
      | some u =>
        match fetch_remote_run art u files with
        | .error e => .error e
        | .ok files2 =>
          fetch_remote_entries st art true files2 (fetched ++ [run.branch]) rest

/-- `fetch_remote` for one source: a network error on the manifest propagates
(uncaught, so the caller's loop aborts, modelled as `Except.error`); a JSON
decode error on the manifest returns with no mutation; otherwise the manifest
entries are processed — an artifact fetch failure aborts — and on success the
manifest is written over the snapshot file. Returns the new dirty flag, the
new local state, and the branches fetched. -/
def fetch_remote (d : Bool) (st : SeenState) (fs : RemoteFS) (outcome : FetchOutcome)
    (art : String → RunOutcome) : Except Unit (Bool × RemoteFS × List String) :=
  match outcome with
  | .netError => .error ()
  | .parseError => .ok (d, fs, [])
  | .ok manifest =>
    match fetch_remote_entries st art d fs.files [] manifest with
    | .error e => .error e
    | .ok (d2, files2, fetched2) => .ok (d2, ⟨some manifest, files2⟩, fetched2)

/-- Branches whose artifact fetch was invoked, empty when the call aborted. -/
def fetchedBranches (r : Except Unit (Bool × RemoteFS × List String)) : List String :=
  match r with
  | .error _ => []
  | .ok (_, _, l) => l

/-- Whether one source, fetched from a clear dirty flag, signals new data
(a newly fetched artifact or a newly observed work-in-progress branch). -/
def fetch_signals (st : SeenState) (r : Remote) : Bool :=
  match fetch_remote false st r.fs r.outcome r.artifact with
  | .error _ => false
  | .ok (d, _, _) => d

/-- The `for remote in remote_db: fetch_remote(...)` phase of `main`, threading
the dirty flag through the sources in order; an uncaught error aborts the
whole phase (and so the cycle and the loop). -/
def fetch_all (d : Bool) : List (SeenState × Remote) → Except Unit (Bool × List RemoteFS)
  | [] => .ok (d, [])
  | p :: rest =>
    match fetch_remote d p.1 p.2.fs p.2.outcome p.2.artifact with
    | .error e => .error e
    | .ok (d1, fs1, _) =>
      match fetch_all d1 rest with
      | .error e => .error e
      | .ok (d2, fss) => .ok (d2, fs1 :: fss)

/-- The contents of the `fss` field of a successful `fetch_all`, empty when
the phase aborted. -/
def fetchAllFss (r : Except Unit (Bool × List RemoteFS)) : List RemoteFS :=
  match r with
  | .error _ => []
  | .ok (_, fss) => fss

/-- Whether a fetch phase completed without an uncaught exception. -/
def fetchAllOk (r : Except Unit (Bool × List RemoteFS)) : Bool :=
  match r with
  | .error _ => false
  | .ok _ => true

/-- Whether every artifact URL in the source's manifest fetches and decodes
cleanly, so that processing the source cannot raise from `fetch_remote_run`. -/
def artifacts_ok (r : Remote) : Bool :=
  match r.outcome with
  | .netError => true
  | .parseError => true
  | .ok m => m.all (fun e =>
      match e.url with
      | none => true
      | some u => decide (r.artifact u = RunOutcome.ok))

/-- One iteration of the `while True` loop of `main` in the fetcher, up to the
publish decision: rebuild the seen states when the dirty flag is set (clearing
it), then fetch every source in order. Returns the dirty flag after the fetch
phase (the publish decision), the seen states used, and the new local states. -/
def fetcher_cycle (fetched : Bool) (seenPrev : List SeenState) (remotes : List Remote) :
    Except Unit (Bool × List SeenState × List RemoteFS) :=
  let seen := if fetched then remotes.map (fun r => build_seen r.fs.snapshot r.fs.files)
              else seenPrev
  let cleared := if fetched then false else fetched
  match fetch_all cleared (seen.zip remotes) with
  | .error e => .error e
  | .ok (d, fss) => .ok (d, seen, fss)

/-- Boolean disjointness of two string lists. -/
def listDisjoint (a b : List String) : Bool :=
  a.all (fun x => decide (x ∉ b))

/-- A flat filesystem: path to optional content. -/
def FileSys (α : Type) : Type := String → Option α

/-- Write a file at a path. -/
def writeFile {α : Type} (fs : FileSys α) (p : String) (v : α) : FileSys α :=
  fun q => if q = p then some v else fs q

/-- `os.rename src dst`: atomic in one step. -/
def renameFile {α : Type} (fs : FileSys α) (src dst : String) : FileSys α :=
  fun q => if q = dst then fs src else if q = src then none else fs q

/-- The successive filesystem states of `write_json_atomic path data`:
the initial state, the state after writing `path + '.new'`, and the state
after the rename. -/
def write_json_atomic_states {α : Type} (fs : FileSys α) (path : String) (data : α) :
    List (FileSys α) :=
  let s1 := writeFile fs (path ++ ".new") data
  let s2 := renameFile s1 (path ++ ".new") path
  [fs, s1, s2]

/-! ## Embedding of `pw_poller.py`

Times are epoch seconds as `Int`; the constants 10800, 32400, 240 and 7200 are
3 h, 9 h, 4 min and 2 h. A series from patchwork is modelled as its id plus its
`received_all` flag; the external tester and tree-selection calls are out of
scope (they do not touch the poller's cursor or ledger state). -/

/-- Python set insertion on a list model for series ids. -/
def addNat (x : Nat) (l : List Nat) : List Nat :=
  if x ∈ l then l else x :: l

/-- Dict lookup with `setdefault(sid, 0)` semantics: absent keys count 0. -/
def psCount : List (Nat × Nat) → Nat → Nat
  | [], _ => 0
  | (j, c) :: rest, sid => if j = sid then c else psCount rest sid

/-- Dict update: replace the binding in place or append a fresh one. -/
def psSet : List (Nat × Nat) → Nat → Nat → List (Nat × Nat)
  | [], sid, v => [(sid, v)]
  | (j, c) :: rest, sid, v => if j = sid then (j, v) :: rest else (j, c) :: psSet rest sid v

/-- Poller loop state: the retry ledger (the `partial_series` dict of `run`),
the two time cursors, and the set of seen series ids. -/
structure PollerState where
  pending_series : List (Nat × Nat)
  prev_big_scan : Int
  prev_req_time : Int
  seen_series : List Nat
  deriving DecidableEq, Repr

/-- Accumulator of the `for pw_series in json_resp` loop: the seen set, this
poll's seen set, the retry ledger, and `had_partial_series`. -/
structure StepAcc where
  seen : List Nat
  this_poll : List Nat
  ps : List (Nat × Nat)
  had : Bool
  deriving DecidableEq, Repr

/-- One series observation `(id, received_all)`: an already-seen id returns
early from `process_series` and is still added to `this_poll_seen`; a fully
received new series is processed and added to both sets; an incomplete one
raises `IncompleteSeries`, which bumps the ledger and sets
`had_partial_series` when the pre-increment count is below 5. -/
def process_one (acc : StepAcc) (s : Nat × Bool) : StepAcc :=
  if s.1 ∈ acc.seen then
    { acc with this_poll := addNat s.1 acc.this_poll }
  else if s.2 then
    { acc with seen := addNat s.1 acc.seen, this_poll := addNat s.1 acc.this_poll }
  else
    { acc with ps := psSet acc.ps s.1 (psCount acc.ps s.1 + 1),
               had := acc.had || decide (psCount acc.ps s.1 < 5) }

/-- Result of one iteration of the polling loop. -/
structure CycleOut where
  state : PollerState
  big_scan : Bool
  since : Int
  deriving DecidableEq, Repr

/-- One iteration of the `while True` loop of `PwPoller.run`: choose big scan
versus routine window, process every series of the response, then advance the
cursors per the big-scan / had-partial rules. -/
def run_cycle (st : PollerState) (req_time : Int) (manifest : List (Nat × Bool)) : CycleOut :=
  let bigScan := st.prev_big_scan + 10800 < req_time
  let since := if bigScan then st.prev_big_scan - 32400 else st.prev_req_time - 240
  let acc := manifest.foldl process_one ⟨st.seen_series, [], st.pending_series, false⟩
  let st2 :=
    if bigScan then
      { pending_series := acc.ps, prev_big_scan := req_time, prev_req_time := req_time,
        seen_series := acc.this_poll }
    else if acc.had then
      { st with pending_series := acc.ps, seen_series := acc.seen }
    else
      { st with pending_series := acc.ps, seen_series := acc.seen, prev_req_time := req_time }
  ⟨st2, decide bigScan, since⟩

/-- Iterate cycles in each of which series `sid` is the sole entry of the
response and is observed incomplete. -/
def iterate_cycles (sid : Nat) : PollerState → List Int → PollerState
  | st, [] => st
  | st, t :: rest => iterate_cycles sid (run_cycle st t [(sid, false)]).state rest

/-- The persisted cursor record of `poller.state`. -/
structure DiskState where
  last_poll : Int
  seen_series : List Nat
  deriving DecidableEq, Repr

/-- A loaded `poller.state` file: `init_state_from_disk` copies each key that
is present, so each field is optional. -/
structure LoadedState where
  last_poll : Option Int
  seen_series : Option (List Nat)
  deriving DecidableEq, Repr

/-- Startup state: defaults `(now − 2 h, ∅)`; a missing file keeps the
defaults; a loaded file overrides exactly the keys it holds. -/
def init_state (now : Int) (file : Option LoadedState) : DiskState :=
  let dflt : DiskState := ⟨now - 7200, []⟩
  match file with
  | none => dflt
  | some l => ⟨l.last_poll.getD dflt.last_poll, l.seen_series.getD dflt.seen_series⟩

/-- Run a sequence of polling cycles, each given by its request time and the
series response. -/
def run_cycles (st : PollerState) (cycles : List (Int × List (Nat × Bool))) : PollerState :=
  cycles.foldl (fun s c => (run_cycle s c.1 c.2).state) st

/-- The sequence of writes to `poller.state` during a run over the given
cycles followed by termination: the loop body performs none; the single dump
happens in the `finally` block, recording `prev_big_scan` and `seen_series`. -/
def run_state_writes (st : PollerState) (cycles : List (Int × List (Nat × Bool))) :
    List DiskState :=
  let stF := run_cycles st cycles
  [⟨stF.prev_big_scan, stF.seen_series⟩]

/-! ## Helper lemmas on the seen-state rebuild -/

theorem mem_addSet_iff (x y : String) (l : List String) :
    x ∈ addSet y l ↔ x = y ∨ x ∈ l := by
  unfold addSet
  by_cases h : y ∈ l
  · simp only [if_pos h]
    exact ⟨Or.inr, fun hx => hx.elim (fun e => e ▸ h) id⟩
  · simp only [if_neg h, List.mem_cons]

theorem seen_mem_foldl (files : List String) (l : List Entry) (st : SeenState) (k : String) :
    k ∈ (l.foldl (build_seen_step files) st).seen ↔
      k ∈ st.seen ∨ ∃ u, (⟨k, some u⟩ : Entry) ∈ l ∧ basename u ∈ files := by
  induction l generalizing st with
  | nil => simp
  | cons e rest ih =>
    rcases e with ⟨b, u0⟩
    rw [List.foldl_cons, ih]
    cases u0 with
    | none =>
      simp only [build_seen_step]
      constructor
      · rintro (hs | ⟨u, hu, hf⟩)
        · exact Or.inl hs
        · exact Or.inr ⟨u, List.mem_cons_of_mem _ hu, hf⟩
      · rintro (hs | ⟨u, hu, hf⟩)
        · exact Or.inl hs
        · rcases List.mem_cons.mp hu with he | hu2
          · simp at he
          · exact Or.inr ⟨u, hu2, hf⟩
    | some v =>
      by_cases hf : basename v ∈ files
      · simp only [build_seen_step, if_pos hf]
        constructor
        · rintro (hs | ⟨u, hu, hfu⟩)
          · rcases (mem_addSet_iff k b st.seen).mp hs with rfl | hs2
            · exact Or.inr ⟨v, List.mem_cons_self _ _, hf⟩
            · exact Or.inl hs2
          · exact Or.inr ⟨u, List.mem_cons_of_mem _ hu, hfu⟩
        · rintro (hs | ⟨u, hu, hfu⟩)
          · exact Or.inl ((mem_addSet_iff k b st.seen).mpr (Or.inr hs))
          · rcases List.mem_cons.mp hu with he | hu2
            · rw [Entry.mk.injEq] at he
              obtain ⟨rfl, h2⟩ := he
              exact Or.inl ((mem_addSet_iff k k st.seen).mpr (Or.inl rfl))
            · exact Or.inr ⟨u, hu2, hfu⟩
      · simp only [build_seen_step, if_neg hf]
        constructor
        · rintro (hs | ⟨u, hu, hfu⟩)
          · exact Or.inl hs
          · exact Or.inr ⟨u, List.mem_cons_of_mem _ hu, hfu⟩
        · rintro (hs | ⟨u, hu, hfu⟩)
          · exact Or.inl hs
          · rcases List.mem_cons.mp hu with he | hu2
            · rw [Entry.mk.injEq] at he
              obtain ⟨rfl, h2⟩ := he
              obtain rfl := Option.some.inj h2
              exact absurd hfu hf
            · exact Or.inr ⟨u, hu2, hfu⟩

theorem wip_mem_foldl (files : List String) (l : List Entry) (st : SeenState) (k : String) :
    k ∈ (l.foldl (build_seen_step files) st).wip ↔
      k ∈ st.wip ∨ (⟨k, none⟩ : Entry) ∈ l := by
  induction l generalizing st with
  | nil => simp
  | cons e rest ih =>
    rcases e with ⟨b, u0⟩
    rw [List.foldl_cons, ih]
    cases u0 with
    | none =>
      simp only [build_seen_step]
      constructor
      · rintro (hs | hu)
        · rcases (mem_addSet_iff k b st.wip).mp hs with rfl | hs2
          · exact Or.inr (List.mem_cons_self _ _)
          · exact Or.inl hs2
        · exact Or.inr (List.mem_cons_of_mem _ hu)
      · rintro (hs | hu)
        · exact Or.inl ((mem_addSet_iff k b st.wip).mpr (Or.inr hs))
        · rcases List.mem_cons.mp hu with he | hu2
          · rw [Entry.mk.injEq] at he
            obtain ⟨rfl, _⟩ := he
            exact Or.inl ((mem_addSet_iff k k st.wip).mpr (Or.inl rfl))
          · exact Or.inr hu2
    | some v =>
      have hwip : ∀ s : SeenState, (build_seen_step files s ⟨b, some v⟩).wip = s.wip := by
        intro s
        simp only [build_seen_step]
        split <;> rfl
      rw [hwip]
      constructor
      · rintro (hs | hu)
        · exact Or.inl hs
        · exact Or.inr (List.mem_cons_of_mem _ hu)
      · rintro (hs | hu)
        · exact Or.inl hs
        · rcases List.mem_cons.mp hu with he | hu2
          · simp at he
          · exact Or.inr hu2

theorem mem_build_seen_seen (results : List Entry) (files : List String) (k : String) :
    k ∈ (build_seen (some results) files).seen ↔
      ∃ u, (⟨k, some u⟩ : Entry) ∈ results ∧ basename u ∈ files := by
  unfold build_seen
  rw [seen_mem_foldl]
  simp

theorem mem_build_seen_wip (results : List Entry) (files : List String) (k : String) :
    k ∈ (build_seen (some results) files).wip ↔ (⟨k, none⟩ : Entry) ∈ results := by
  unfold build_seen
  rw [wip_mem_foldl]
  simp

theorem not_mem_fetched_of_seen (st : SeenState) (art : String → RunOutcome) (k : String)
    (hk : k ∈ st.seen) :
    ∀ (m : List Entry) (d : Bool) (files acc : List String)
      (res : Bool × List String × List String),
      fetch_remote_entries st art d files acc m = .ok res → k ∉ acc → k ∉ res.2.2 := by
  intro m
  induction m with
  | nil =>
    intro d files acc res hres hacc
    simp only [fetch_remote_entries, Except.ok.injEq] at hres
    rw [← hres]
    exact hacc
  | cons run rest ih =>
    intro d files acc res hres hacc
    unfold fetch_remote_entries at hres
    by_cases hs : run.branch ∈ st.seen
    · rw [if_pos hs] at hres
      exact ih d files acc res hres hacc
    · rw [if_neg hs] at hres
      cases hu : run.url with
      | none =>
        rw [hu] at hres
        dsimp only at hres
        exact ih _ files acc res hres hacc
      | some u =>
        rw [hu] at hres
        dsimp only at hres
        cases hr : fetch_remote_run art u files with
        | error e =>
          rw [hr] at hres
          simp at hres
        | ok files2 =>
          rw [hr] at hres
          dsimp only at hres
          apply ih true files2 _ res hres
          intro hmem
          rcases List.mem_append.mp hmem with h1 | h2
          · exact hacc h1
          · rcases List.mem_singleton.mp h2 with rfl
            exact hs hk

/-- Claim C1: at-most-once artifact fetch. Once the snapshot file records an
entry for key `k` with artifact URL `u` and the artifact file `basename u`
exists in the source's snapshot directory, the rebuilt seen state classifies
`k` as already seen (complete), and a later cycle presented with the same
manifest never invokes the artifact fetch for `k` — whatever each artifact
fetch would return, and even if the cycle aborts on another entry. -/
theorem at_most_once_artifact_fetch (results : List Entry) (files : List String)
    (k u : String) (d : Bool) (art : String → RunOutcome)
    (hk : (⟨k, some u⟩ : Entry) ∈ results) (hfile : basename u ∈ files) :
    k ∈ (build_seen (some results) files).seen ∧
    k ∉ fetchedBranches
      (fetch_remote d (build_seen (some results) files) ⟨some results, files⟩
        (.ok results) art) := by
  have hseen : k ∈ (build_seen (some results) files).seen :=
    (mem_build_seen_seen results files k).mpr ⟨u, hk, hfile⟩
  refine ⟨hseen, ?_⟩
  unfold fetch_remote
  dsimp only
  cases hres : fetch_remote_entries (build_seen (some results) files) art d files [] results with
  | error e =>
    simp [fetchedBranches]
  | ok res =>
    rcases res with ⟨d2, files2, f2⟩
    dsimp only [fetchedBranches]
    exact not_mem_fetched_of_seen (build_seen (some results) files) art k hseen results d
      files [] (d2, files2, f2) hres (by simp)

theorem at_most_once_artifact_fetch_witness :
    "br" ∈ (build_seen (some [⟨"br", some "r1.json"⟩]) ["r1.json"]).seen ∧
    "br" ∉ fetchedBranches
      (fetch_remote false (build_seen (some [⟨"br", some "r1.json"⟩]) ["r1.json"])
        ⟨some [⟨"br", some "r1.json"⟩], ["r1.json"]⟩ (.ok [⟨"br", some "r1.json"⟩])
        (fun _ => RunOutcome.ok)) :=
  at_most_once_artifact_fetch [⟨"br", some "r1.json"⟩] ["r1.json"] "br" "r1.json" false
    (fun _ => RunOutcome.ok) (by decide) (by decide)

/-- Claim C4 (amended): the rebuild classifies a key as complete exactly when
some snapshot entry carries an artifact URL whose basename exists on disk, and
as work-in-progress exactly when some snapshot entry carries no artifact URL;
a key whose entry has a URL but whose file is missing lands in neither set. -/
theorem build_seen_partition (results : List Entry) (files : List String) (k : String) :
    (k ∈ (build_seen (some results) files).seen ↔
      ∃ u, (⟨k, some u⟩ : Entry) ∈ results ∧ basename u ∈ files) ∧
    (k ∈ (build_seen (some results) files).wip ↔ (⟨k, none⟩ : Entry) ∈ results) :=
  ⟨mem_build_seen_seen results files k, mem_build_seen_wip results files k⟩

/-- Counterexample to claim C4 as stated: a snapshot entry whose artifact URL
is recorded but whose local artifact file is absent is classified into
neither set — the claim says it must be classified work-in-progress. -/
theorem build_seen_partition_cex :
    (build_seen (some [⟨"br", some "r1.json"⟩]) []).seen = [] ∧
    (build_seen (some [⟨"br", some "r1.json"⟩]) []).wip = [] := by
  decide

/-- Claim C10: a JSON decode error on the manifest makes `fetch_remote` return
before any mutation — the dirty flag keeps its prior value `d`, the local
snapshot file and artifact files `fs` are untouched, and no artifact fetch is
invoked (the seen and work-in-progress sets are never written by
`fetch_remote` in any branch, so they are unchanged as well). -/
theorem fetch_remote_parse_error_no_mutation (d : Bool) (st : SeenState) (fs : RemoteFS)
    (art : String → RunOutcome) :
    fetch_remote d st fs .parseError art = .ok (d, fs, []) :=
  rfl

/-! ## Helper lemmas on the dirty flag and the fetch phase -/

theorem fetch_remote_entries_dirty_or (st : SeenState) (art : String → RunOutcome)
    (m : List Entry) :
    ∀ (d : Bool) (files acc : List String),
      fetch_remote_entries st art d files acc m =
        match fetch_remote_entries st art false files acc m with
        | .error e => .error e
        | .ok (d0, files0, f0) => .ok (d || d0, files0, f0) := by
  induction m with
  | nil => intro d files acc; simp [fetch_remote_entries]
  | cons run rest ih =>
    intro d files acc
    unfold fetch_remote_entries
    by_cases hs : run.branch ∈ st.seen
    · simp only [if_pos hs]
      exact ih d files acc
    · simp only [if_neg hs]
      cases run.url with
      | none =>
        dsimp only
        rw [ih (d || !decide (run.branch ∈ st.wip)) files acc,
            ih (false || !decide (run.branch ∈ st.wip)) files acc]
        cases hE : fetch_remote_entries st art false files acc rest with
        | error e => rfl
        | ok t =>
          rcases t with ⟨d0, f0, ff0⟩
          simp [Bool.or_assoc]
      | some u =>
        dsimp only
        cases hr : fetch_remote_run art u files with
        | error e => rfl
        | ok files2 =>
          dsimp only
          rw [ih true files2 (acc ++ [run.branch])]
          cases hE : fetch_remote_entries st art false files2 (acc ++ [run.branch]) rest with
          | error e => rfl
          | ok t =>
            rcases t with ⟨d0, f0, ff0⟩
            simp

theorem fetch_remote_entries_files_mono (st : SeenState) (art : String → RunOutcome)
    (m : List Entry) :
    ∀ (d : Bool) (files acc : List String) (res : Bool × List String × List String),
      fetch_remote_entries st art d files acc m = .ok res →
      ∀ x ∈ files, x ∈ res.2.1 := by
  induction m with
  | nil =>
    intro d files acc res hres x hx
    simp only [fetch_remote_entries, Except.ok.injEq] at hres
    rw [← hres]
    exact hx
  | cons run rest ih =>
    intro d files acc res hres x hx
    unfold fetch_remote_entries at hres
    by_cases hs : run.branch ∈ st.seen
    · rw [if_pos hs] at hres
      exact ih d files acc res hres x hx
    · rw [if_neg hs] at hres
      cases hu : run.url with
      | none =>
        rw [hu] at hres
        dsimp only at hres
        exact ih _ files acc res hres x hx
      | some u =>
        rw [hu] at hres
        dsimp only at hres
        cases hr : fetch_remote_run art u files with
        | error e =>
          rw [hr] at hres
          simp at hres
        | ok files2 =>
          rw [hr] at hres
          dsimp only at hres
          have hx2 : x ∈ files2 := by
            unfold fetch_remote_run at hr
            cases ha : art u with
            | netError => rw [ha] at hr; cases hr
            | parseError => rw [ha] at hr; cases hr
            | ok =>
              rw [ha] at hr
              dsimp only at hr
              rcases hr with ⟨⟩
              exact (mem_addSet_iff x (basename u) files).mpr (Or.inr hx)
          exact ih true files2 _ res hres x hx2

theorem fetch_remote_dirty_or (d : Bool) (st : SeenState) (fs : RemoteFS) (o : FetchOutcome)
    (art : String → RunOutcome) :
    fetch_remote d st fs o art =
      match fetch_remote false st fs o art with
      | .error e => .error e
      | .ok (d0, fs0, f0) => .ok (d || d0, fs0, f0) := by
  cases o with
  | netError => rfl
  | parseError => simp [fetch_remote]
  | ok manifest =>
    simp only [fetch_remote]
    rw [fetch_remote_entries_dirty_or st art manifest d fs.files []]
    cases hE : fetch_remote_entries st art false fs.files [] manifest with
    | error e => rfl
    | ok t =>
      rcases t with ⟨d0, f0, ff0⟩
      rfl

theorem fetch_all_dirty_or (l : List (SeenState × Remote)) (d : Bool) :
    fetch_all d l =
      match fetch_all false l with
      | .error e => .error e
      | .ok (d0, fss) => .ok (d || d0, fss) := by
  induction l generalizing d with
  | nil => simp [fetch_all]
  | cons p rest ih =>
    simp only [fetch_all]
    rw [fetch_remote_dirty_or d p.1 p.2.fs p.2.outcome p.2.artifact]
    cases hfr : fetch_remote false p.1 p.2.fs p.2.outcome p.2.artifact with
    | error e => rfl
    | ok t =>
      rcases t with ⟨d1, fs1, f1⟩
      simp only
      rw [ih (d || d1), ih d1]
      cases hfa : fetch_all false rest with
      | error e => rfl
      | ok t2 =>
        rcases t2 with ⟨d2, fss⟩
        simp [Bool.or_assoc]

theorem fetch_all_false_dirty (l : List (SeenState × Remote)) (d : Bool) (fss : List RemoteFS)
    (h : fetch_all false l = .ok (d, fss)) :
    d = l.any (fun p => fetch_signals p.1 p.2) := by
  induction l generalizing d fss with
  | nil =>
    simp only [fetch_all, Except.ok.injEq, Prod.mk.injEq] at h
    simp [← h.1]
  | cons p rest ih =>
    simp only [fetch_all] at h
    cases hfr : fetch_remote false p.1 p.2.fs p.2.outcome p.2.artifact with
    | error e => rw [hfr] at h; simp at h
    | ok t =>
      rcases t with ⟨d1, fs1, f1⟩
      rw [hfr] at h
      simp only at h
      rw [fetch_all_dirty_or rest d1] at h
      cases hfa : fetch_all false rest with
      | error e => rw [hfa] at h; simp at h
      | ok t2 =>
        rcases t2 with ⟨d2, fss2⟩
        rw [hfa] at h
        simp only [Except.ok.injEq, Prod.mk.injEq] at h
        obtain ⟨hd, -⟩ := h
        have hrest : d2 = rest.any (fun p => fetch_signals p.1 p.2) := ih d2 fss2 hfa
        have hsig : fetch_signals p.1 p.2 = d1 := by
          unfold fetch_signals
          rw [hfr]
        simp [List.any_cons, hsig, ← hd, hrest]

theorem fetch_remote_entries_ok_of_artifacts (st : SeenState) (art : String → RunOutcome)
    (m : List Entry) :
    ∀ (d : Bool) (files acc : List String),
      (∀ e ∈ m, ∀ u, e.url = some u → art u = RunOutcome.ok) →
      ∃ res, fetch_remote_entries st art d files acc m = .ok res := by
  induction m with
  | nil =>
    intro d files acc hart
    exact ⟨(d, files, acc), rfl⟩
  | cons run rest ih =>
    intro d files acc hart
    have hrest : ∀ e ∈ rest, ∀ u, e.url = some u → art u = RunOutcome.ok :=
      fun e he => hart e (List.mem_cons_of_mem _ he)
    unfold fetch_remote_entries
    by_cases hs : run.branch ∈ st.seen
    · rw [if_pos hs]
      exact ih d files acc hrest
    · rw [if_neg hs]
      cases hu : run.url with
      | none =>
        dsimp only
        exact ih _ files acc hrest
      | some u =>
        have ha : art u = RunOutcome.ok := hart run (List.mem_cons_self _ _) u hu
        dsimp only
        unfold fetch_remote_run
        rw [ha]
        dsimp only
        exact ih true _ _ hrest

/-- Claim C3 (amended): only manifest parse errors are contained. A JSON
decode error on a source's manifest makes the source be skipped for the cycle
with its local state untouched, and when additionally no source raises a
network error on its manifest and every artifact URL of every decoded
manifest fetches and decodes cleanly, the fetch phase of the cycle completes
normally for every source. Outside those conditions the cycle aborts: a
network error on the manifest, and a network or decode error raised inside
`fetch_remote_run` on an artifact body, are all uncaught (see the
counterexample). -/
theorem parse_error_contained (l : List (SeenState × Remote)) (b : Bool)
    (h : ∀ p ∈ l, p.2.outcome ≠ FetchOutcome.netError ∧ artifacts_ok p.2 = true) :
    fetchAllOk (fetch_all b l) = true ∧
    (fetchAllFss (fetch_all b l)).length = l.length ∧
    ∀ q ∈ l.zip (fetchAllFss (fetch_all b l)),
      q.1.2.outcome = FetchOutcome.parseError → q.2 = q.1.2.fs := by
  induction l generalizing b with
  | nil => simp [fetch_all, fetchAllOk, fetchAllFss]
  | cons p rest ih =>
    have hp : p.2.outcome ≠ FetchOutcome.netError := (h p (List.mem_cons_self _ _)).1
    have hap : artifacts_ok p.2 = true := (h p (List.mem_cons_self _ _)).2
    have hrest := ih b (fun q hq => h q (List.mem_cons_of_mem _ hq))
    cases ho : p.2.outcome with
    | netError => exact absurd ho hp
    | parseError =>
      have hfr : fetch_remote b p.1 p.2.fs p.2.outcome p.2.artifact = .ok (b, p.2.fs, []) := by
        rw [ho]
        rfl
      cases hfa : fetch_all b rest with
      | error e =>
        rw [hfa] at hrest
        simp [fetchAllOk] at hrest
      | ok t =>
        rcases t with ⟨d2, fss2⟩
        rw [hfa] at hrest
        obtain ⟨-, h2, h3⟩ := hrest
        simp only [fetchAllFss] at h2 h3
        have hgoal : fetch_all b (p :: rest) = .ok (d2, p.2.fs :: fss2) := by
          simp only [fetch_all, hfr, hfa]
        rw [hgoal]
        simp only [fetchAllOk, fetchAllFss, List.length_cons, h2, List.zip_cons_cons]
        refine ⟨trivial, trivial, ?_⟩
        intro q hq
        rcases List.mem_cons.mp hq with rfl | hq2
        · intro _
          rfl
        · exact h3 q hq2
    | ok m =>
      have hall : ∀ e ∈ m, ∀ u, e.url = some u → p.2.artifact u = RunOutcome.ok := by
        unfold artifacts_ok at hap
        rw [ho] at hap
        rw [List.all_eq_true] at hap
        intro e he u hu
        have h2 := hap e he
        simp only [hu] at h2
        exact of_decide_eq_true h2
      obtain ⟨resE, hresE⟩ :=
        fetch_remote_entries_ok_of_artifacts p.1 p.2.artifact m b p.2.fs.files [] hall
      rcases resE with ⟨dd, ff, bb⟩
      have hfr : fetch_remote b p.1 p.2.fs p.2.outcome p.2.artifact
          = .ok (dd, ⟨some m, ff⟩, bb) := by
        rw [ho]
        unfold fetch_remote
        dsimp only
        rw [hresE]
      have hrest2 := ih dd (fun q hq => h q (List.mem_cons_of_mem _ hq))
      cases hfa : fetch_all dd rest with
      | error e =>
        rw [hfa] at hrest2
        simp [fetchAllOk] at hrest2
      | ok t =>
        rcases t with ⟨d2, fss2⟩
        rw [hfa] at hrest2
        obtain ⟨-, h2, h3⟩ := hrest2
        simp only [fetchAllFss] at h2 h3
        have hgoal : fetch_all b (p :: rest) = .ok (d2, (⟨some m, ff⟩ : RemoteFS) :: fss2) := by
          simp only [fetch_all, hfr, hfa]
        rw [hgoal]
        simp only [fetchAllOk, fetchAllFss, List.length_cons, h2, List.zip_cons_cons]
        refine ⟨trivial, trivial, ?_⟩
        intro q hq
        rcases List.mem_cons.mp hq with rfl | hq2
        · intro hpe
          rw [ho] at hpe
          cases hpe
        · exact h3 q hq2

theorem parse_error_contained_witness :
    fetchAllOk (fetch_all false
      [((⟨[], []⟩ : SeenState), (⟨⟨none, []⟩, .parseError, fun _ => RunOutcome.ok⟩ : Remote)),
       ((⟨[], []⟩ : SeenState),
        (⟨⟨none, []⟩, .ok [⟨"br", some "r1.json"⟩], fun _ => RunOutcome.ok⟩ : Remote))]) = true ∧
    (fetchAllFss (fetch_all false
      [((⟨[], []⟩ : SeenState), (⟨⟨none, []⟩, .parseError, fun _ => RunOutcome.ok⟩ : Remote)),
       ((⟨[], []⟩ : SeenState),
        (⟨⟨none, []⟩, .ok [⟨"br", some "r1.json"⟩], fun _ => RunOutcome.ok⟩ : Remote))])).length
      = 2 ∧
    ∀ q ∈ ([((⟨[], []⟩ : SeenState), (⟨⟨none, []⟩, .parseError, fun _ => RunOutcome.ok⟩ : Remote)),
            ((⟨[], []⟩ : SeenState),
             (⟨⟨none, []⟩, .ok [⟨"br", some "r1.json"⟩], fun _ => RunOutcome.ok⟩ : Remote))].zip
        (fetchAllFss (fetch_all false
          [((⟨[], []⟩ : SeenState), (⟨⟨none, []⟩, .parseError, fun _ => RunOutcome.ok⟩ : Remote)),
           ((⟨[], []⟩ : SeenState),
            (⟨⟨none, []⟩, .ok [⟨"br", some "r1.json"⟩], fun _ => RunOutcome.ok⟩ : Remote))]))),
      q.1.2.outcome = FetchOutcome.parseError → q.2 = q.1.2.fs :=
  parse_error_contained
    [((⟨[], []⟩ : SeenState), (⟨⟨none, []⟩, .parseError, fun _ => RunOutcome.ok⟩ : Remote)),
     ((⟨[], []⟩ : SeenState),
      (⟨⟨none, []⟩, .ok [⟨"br", some "r1.json"⟩], fun _ => RunOutcome.ok⟩ : Remote))]
    false (by decide)

/-- Counterexample to claim C3 as stated: (1) a network error while fetching
the first source's manifest is not caught anywhere — the whole fetch phase
(and with it the cycle and the loop) aborts, and the second, healthy source
is never processed; (2) even with no network error at all, a manifest that
decodes but whose artifact body fails to decode inside `fetch_remote_run`
raises an uncaught `JSONDecodeError` that likewise aborts the cycle before
the second source. The claim asserts only the failing source is skipped. -/
theorem network_error_aborts_cycle_cex :
    fetch_all false
      [((⟨[], []⟩ : SeenState), (⟨⟨none, []⟩, .netError, fun _ => RunOutcome.ok⟩ : Remote)),
       ((⟨[], []⟩ : SeenState),
        (⟨⟨none, []⟩, .ok [⟨"br", none⟩], fun _ => RunOutcome.ok⟩ : Remote))] = .error () ∧
    fetch_all false
      [((⟨[], []⟩ : SeenState),
        (⟨⟨none, []⟩, .ok [⟨"br", some "r1.json"⟩], fun _ => RunOutcome.parseError⟩ : Remote)),
       ((⟨[], []⟩ : SeenState),
        (⟨⟨none, []⟩, .ok [⟨"b2", none⟩], fun _ => RunOutcome.ok⟩ : Remote))] = .error () :=
  ⟨rfl, rfl⟩

/-- Claim C5: dirty-gated atomic publish. In a cycle that completes, the
publish decision (the dirty flag after the fetch phase) is true exactly when
some source's fetch, started from a clear flag, signals new data; and the
publish writes the whole view to `path + ".new"` and then renames, so across
the three filesystem states of `write_json_atomic` the published path holds
either the complete old content or the complete new content, ending new. -/
theorem dirty_gated_atomic_publish {α : Type} (f : Bool) (seenPrev : List SeenState)
    (remotes : List Remote) (d : Bool) (seen : List SeenState) (fss : List RemoteFS)
    (h : fetcher_cycle f seenPrev remotes = .ok (d, seen, fss))
    (fs : FileSys α) (path : String) (data : α) (hne : path ≠ path ++ ".new") :
    d = (seen.zip remotes).any (fun p => fetch_signals p.1 p.2) ∧
    (write_json_atomic_states fs path data).map (fun s => s path) =
      [fs path, fs path, some data] := by
  constructor
  · unfold fetcher_cycle at h
    dsimp only at h
    have hc : (if f = true then false else f) = false := by cases f <;> rfl
    rw [hc] at h
    cases hfa : fetch_all false
        ((if f = true then remotes.map (fun r => build_seen r.fs.snapshot r.fs.files)
          else seenPrev).zip remotes) with
    | error e =>
      rw [hfa] at h
      simp at h
    | ok t =>
      rcases t with ⟨d0, fss0⟩
      rw [hfa] at h
      simp only [Except.ok.injEq, Prod.mk.injEq] at h
      obtain ⟨hd, hseen, -⟩ := h
      subst hd
      rw [hseen] at hfa
      exact fetch_all_false_dirty _ d0 fss0 hfa
  · simp [write_json_atomic_states, writeFile, renameFile, hne]

theorem dirty_gated_atomic_publish_witness :
    true = ([(⟨[], []⟩ : SeenState)].zip
        [(⟨⟨none, []⟩, .ok [⟨"br", none⟩], fun _ => RunOutcome.ok⟩ : Remote)]).any
      (fun p => fetch_signals p.1 p.2) ∧
    (write_json_atomic_states (fun _ => (none : Option Nat)) "combined.json" 0).map
      (fun s => s "combined.json") = [none, none, some 0] :=
  dirty_gated_atomic_publish true [] [⟨⟨none, []⟩, .ok [⟨"br", none⟩], fun _ => RunOutcome.ok⟩]
    true [⟨[], []⟩] [⟨some [⟨"br", none⟩], []⟩] rfl
    (fun _ => none) "combined.json" 0 (by decide)

/-- Claim C7 (amended): when the snapshot's entries carry distinct keys, the
rebuilt `complete` and `work_in_progress` sets are disjoint; and a key that is
complete stays complete across a cycle whose manifest still carries the same
artifact URL for it — artifact files are never deleted and the fetch phase
only adds files, so such a key never moves back to work-in-progress or to
unseen. (Without these provisos the claim fails: see the counterexample.) -/
theorem seen_state_monotone (results m2 : List Entry) (files : List String)
    (k u : String) (d d2 : Bool) (fs2 : RemoteFS) (fb : List String)
    (art : String → RunOutcome)
    (hnodup : (results.map Entry.branch).Nodup)
    (hk : (⟨k, some u⟩ : Entry) ∈ results) (hfile : basename u ∈ files)
    (hkeep : (⟨k, some u⟩ : Entry) ∈ m2)
    (hfetch : fetch_remote d (build_seen (some results) files) ⟨some results, files⟩
      (.ok m2) art = .ok (d2, fs2, fb)) :
    listDisjoint (build_seen (some results) files).seen
      (build_seen (some results) files).wip = true ∧
    k ∈ (build_seen fs2.snapshot fs2.files).seen := by
  constructor
  · rw [listDisjoint, List.all_eq_true]
    intro x hx
    rw [decide_eq_true_iff]
    intro hwip
    obtain ⟨u2, hu2, -⟩ := (mem_build_seen_seen results files x).mp hx
    have hn := (mem_build_seen_wip results files x).mp hwip
    have heq : (⟨x, some u2⟩ : Entry) = ⟨x, none⟩ :=
      List.inj_on_of_nodup_map hnodup hu2 hn rfl
    rw [Entry.mk.injEq] at heq
    exact Option.some_ne_none u2 heq.2
  · cases hE : fetch_remote_entries (build_seen (some results) files) art d files [] m2 with
    | error e =>
      have habort : fetch_remote d (build_seen (some results) files) ⟨some results, files⟩
          (.ok m2) art = .error e := by
        unfold fetch_remote
        dsimp only
        rw [hE]
      rw [habort] at hfetch
      cases hfetch
    | ok res =>
      rcases res with ⟨dd, ff, bb⟩
      have hfr : fetch_remote d (build_seen (some results) files) ⟨some results, files⟩
          (.ok m2) art = .ok (dd, ⟨some m2, ff⟩, bb) := by
        unfold fetch_remote
        dsimp only
        rw [hE]
      rw [hfr] at hfetch
      simp only [Except.ok.injEq, Prod.mk.injEq] at hfetch
      obtain ⟨-, hfs2, -⟩ := hfetch
      rw [← hfs2]
      apply (mem_build_seen_seen m2 ff k).mpr
      refine ⟨u, hkeep, ?_⟩
      exact fetch_remote_entries_files_mono (build_seen (some results) files) art m2 d files []
        (dd, ff, bb) hE (basename u) hfile

theorem seen_state_monotone_witness :
    listDisjoint (build_seen (some [⟨"br", some "r1.json"⟩]) ["r1.json"]).seen
      (build_seen (some [⟨"br", some "r1.json"⟩]) ["r1.json"]).wip = true ∧
    "br" ∈ (build_seen
      (RemoteFS.snapshot ⟨some [⟨"br", some "r1.json"⟩, ⟨"new", none⟩], ["r1.json"]⟩)
      (RemoteFS.files ⟨some [⟨"br", some "r1.json"⟩, ⟨"new", none⟩], ["r1.json"]⟩)).seen :=
  seen_state_monotone [⟨"br", some "r1.json"⟩] [⟨"br", some "r1.json"⟩, ⟨"new", none⟩]
    ["r1.json"] "br" "r1.json" false true
    ⟨some [⟨"br", some "r1.json"⟩, ⟨"new", none⟩], ["r1.json"]⟩ []
    (fun _ => RunOutcome.ok)
    (by decide) (by decide) (by decide) (by decide) rfl

/-- Counterexample to claim C7 as stated: (1) a snapshot with two entries for
the same key — one without URL, one with URL and the file on disk — puts the
key in both `complete` and `work_in_progress`, so the sets are not disjoint;
(2) a remote manifest that withdraws the artifact URL of a complete key is
rewritten over the snapshot by `fetch_remote` (the key itself is skipped as
seen, but the new dirty flag forces a rebuild), and the next rebuild
classifies the key as work-in-progress — a `complete → work_in_progress`
transition. -/
theorem seen_state_monotone_cex :
    ("x" ∈ (build_seen (some [⟨"x", none⟩, ⟨"x", some "a.json"⟩]) ["a.json"]).seen ∧
     "x" ∈ (build_seen (some [⟨"x", none⟩, ⟨"x", some "a.json"⟩]) ["a.json"]).wip) ∧
    ("br" ∈ (build_seen (some [⟨"br", some "r1.json"⟩]) ["r1.json"]).seen ∧
     fetch_remote false (build_seen (some [⟨"br", some "r1.json"⟩]) ["r1.json"])
        ⟨some [⟨"br", some "r1.json"⟩], ["r1.json"]⟩ (.ok [⟨"br", none⟩, ⟨"new", none⟩])
        (fun _ => RunOutcome.ok)
        = .ok (true, ⟨some [⟨"br", none⟩, ⟨"new", none⟩], ["r1.json"]⟩, []) ∧
     "br" ∈ (build_seen (some [⟨"br", none⟩, ⟨"new", none⟩]) ["r1.json"]).wip ∧
     "br" ∉ (build_seen (some [⟨"br", none⟩, ⟨"new", none⟩]) ["r1.json"]).seen) :=
  ⟨⟨by decide, by decide⟩, by decide, rfl, by decide, by decide⟩

/-! ## Helper lemmas on the poller's retry ledger and cursors -/

theorem psCount_psSet_self (ps : List (Nat × Nat)) (sid v : Nat) :
    psCount (psSet ps sid v) sid = v := by
  induction ps with
  | nil => simp [psSet, psCount]
  | cons p rest ih =>
    rcases p with ⟨j, c⟩
    by_cases h : j = sid
    · subst h
      simp [psSet, psCount]
    · simp [psSet, psCount, h, ih]

theorem psCount_psSet_ne (ps : List (Nat × Nat)) (j sid v : Nat) (h : j ≠ sid) :
    psCount (psSet ps j v) sid = psCount ps sid := by
  induction ps with
  | nil => simp [psSet, psCount, h]
  | cons p rest ih =>
    rcases p with ⟨j2, c⟩
    by_cases h2 : j2 = j
    · subst h2
      simp [psSet, psCount, h]
    · simp [psSet, psCount, h2, ih]

theorem process_one_incomplete (acc : StepAcc) (sid : Nat) (h : sid ∉ acc.seen) :
    process_one acc (sid, false) =
      ⟨acc.seen, acc.this_poll, psSet acc.ps sid (psCount acc.ps sid + 1),
       acc.had || decide (psCount acc.ps sid < 5)⟩ := by
  simp [process_one, h]

theorem psCount_le_process_one (acc : StepAcc) (s : Nat × Bool) (j : Nat) :
    psCount acc.ps j ≤ psCount (process_one acc s).ps j := by
  unfold process_one
  by_cases h1 : s.1 ∈ acc.seen
  · simp [h1]
  · simp only [if_neg h1]
    by_cases h2 : s.2 = true
    · simp [h2]
    · simp only [h2, if_false, Bool.false_eq_true]
      by_cases h3 : j = s.1
      · subst h3
        simp [psCount_psSet_self]
      · simp [psCount_psSet_ne acc.ps s.1 j (psCount acc.ps s.1 + 1) (fun e => h3 e.symm)]

theorem psCount_le_foldl (m : List (Nat × Bool)) :
    ∀ (acc : StepAcc) (j : Nat), psCount acc.ps j ≤ psCount ((m.foldl process_one acc)).ps j := by
  induction m with
  | nil => intro acc j; simp
  | cons s rest ih =>
    intro acc j
    rw [List.foldl_cons]
    exact le_trans (psCount_le_process_one acc s j) (ih (process_one acc s) j)

theorem run_cycle_pending (st : PollerState) (t : Int) (m : List (Nat × Bool)) :
    (run_cycle st t m).state.pending_series =
      (m.foldl process_one ⟨st.seen_series, [], st.pending_series, false⟩).ps := by
  unfold run_cycle
  dsimp only
  split
  · rfl
  · split <;> rfl

theorem run_cycle_single_incomplete (st : PollerState) (t : Int) (sid : Nat)
    (hseen : sid ∉ st.seen_series) (hroutine : ¬ (st.prev_big_scan + 10800 < t)) :
    (run_cycle st t [(sid, false)]).state =
      ⟨psSet st.pending_series sid (psCount st.pending_series sid + 1),
       st.prev_big_scan,
       (if psCount st.pending_series sid < 5 then st.prev_req_time else t),
       st.seen_series⟩ := by
  unfold run_cycle
  dsimp only
  rw [List.foldl_cons, List.foldl_nil,
      process_one_incomplete ⟨st.seen_series, [], st.pending_series, false⟩ sid hseen]
  dsimp only
  rw [if_neg hroutine]
  by_cases hc : psCount st.pending_series sid < 5
  · rw [if_pos hc]
    simp [hc]
  · rw [if_neg hc]
    simp [hc]

theorem iterate_incomplete (sid : Nat) (times : List Int) :
    ∀ (st : PollerState), sid ∉ st.seen_series →
      (∀ t ∈ times, ¬ (st.prev_big_scan + 10800 < t)) →
      (iterate_cycles sid st times).prev_req_time =
        (if psCount st.pending_series sid + times.length ≤ 5 then st.prev_req_time
         else times.getLastD st.prev_req_time) ∧
      (iterate_cycles sid st times).prev_big_scan = st.prev_big_scan ∧
      (iterate_cycles sid st times).seen_series = st.seen_series ∧
      psCount (iterate_cycles sid st times).pending_series sid =
        psCount st.pending_series sid + times.length := by
  induction times with
  | nil =>
    intro st hseen hroutine
    simp [iterate_cycles]
  | cons t rest ih =>
    intro st hseen hroutine
    have hr0 : ¬ (st.prev_big_scan + 10800 < t) := hroutine t (List.mem_cons_self _ _)
    have hchar := run_cycle_single_incomplete st t sid hseen hr0
    rw [iterate_cycles, hchar]
    have hih := ih ⟨psSet st.pending_series sid (psCount st.pending_series sid + 1),
        st.prev_big_scan,
        (if psCount st.pending_series sid < 5 then st.prev_req_time else t),
        st.seen_series⟩ hseen
      (fun t2 ht2 => hroutine t2 (List.mem_cons_of_mem _ ht2))
    obtain ⟨h1, h2, h3, h4⟩ := hih
    dsimp only at h1 h2 h3 h4
    rw [psCount_psSet_self] at h1 h4
    refine ⟨?_, h2, h3, by rw [h4]; simp only [List.length_cons]; omega⟩
    rw [h1]
    by_cases hA : psCount st.pending_series sid + (t :: rest).length ≤ 5
    · have hA1 : psCount st.pending_series sid + 1 + rest.length ≤ 5 := by
        simp only [List.length_cons] at hA
        omega
      have hc : psCount st.pending_series sid < 5 := by
        simp only [List.length_cons] at hA
        omega
      rw [if_pos hA1, if_pos hA, if_pos hc]
    · have hA1 : ¬ (psCount st.pending_series sid + 1 + rest.length ≤ 5) := by
        simp only [List.length_cons] at hA
        omega
      rw [if_neg hA1, if_neg hA]
      cases rest with
      | nil =>
        have hc : ¬ (psCount st.pending_series sid < 5) := by
          simp only [List.length_cons, List.length_nil] at hA
          omega
        simp [List.getLastD, if_neg hc]
      | cons r rs => simp [List.getLastD]

/-! ## Claims about the poller -/

/-- Claim C2: retry bound. For a series that is the sole (incomplete) item of
six consecutive routine polling cycles, starting with no ledger entry, the
poll cursor `prev_req_time` is unchanged after each of the first five
observations and advances to the sixth cycle's request time on the sixth
observation — the per-id count must strictly exceed 5 before advancement. -/
theorem retry_bound (st : PollerState) (sid : Nat) (t1 t2 t3 t4 t5 t6 : Int)
    (h0 : psCount st.pending_series sid = 0)
    (hseen : sid ∉ st.seen_series)
    (hroutine : ∀ t ∈ [t1, t2, t3, t4, t5, t6], ¬ (st.prev_big_scan + 10800 < t)) :
    (∀ k ≤ 5, (iterate_cycles sid st ([t1, t2, t3, t4, t5, t6].take k)).prev_req_time
      = st.prev_req_time) ∧
    (iterate_cycles sid st [t1, t2, t3, t4, t5, t6]).prev_req_time = t6 := by
  constructor
  · intro k hk
    have hsub : ∀ t ∈ [t1, t2, t3, t4, t5, t6].take k, ¬ (st.prev_big_scan + 10800 < t) :=
      fun t ht => hroutine t (List.take_subset k _ ht)
    have h := (iterate_incomplete sid ([t1, t2, t3, t4, t5, t6].take k) st hseen hsub).1
    have hlen : ([t1, t2, t3, t4, t5, t6].take k).length ≤ 5 := by
      simp only [List.length_take, List.length_cons, List.length_nil]
      omega
    rw [h, h0, if_pos (by omega)]
  · have h := (iterate_incomplete sid [t1, t2, t3, t4, t5, t6] st hseen hroutine).1
    rw [h, h0, if_neg (by simp)]
    rfl

theorem retry_bound_witness :
    (∀ k ≤ 5, (iterate_cycles 7 ⟨[], 0, 0, []⟩
      (([10, 20, 30, 40, 50, 60] : List Int).take k)).prev_req_time = 0) ∧
    (iterate_cycles 7 ⟨[], 0, 0, []⟩ ([10, 20, 30, 40, 50, 60] : List Int)).prev_req_time = 60 :=
  retry_bound ⟨[], 0, 0, []⟩ 7 10 20 30 40 50 60 (by decide) (by decide) (by decide)

/-- Claim C6: poll window schedule. A cycle is a wide rescan exactly when more
than 3 hours (10800 s) have elapsed since the previous wide rescan; a wide
rescan's window start is the previous wide-rescan time minus 9 hours
(32400 s); a routine scan's window start is the previous request time minus
4 minutes (240 s). -/
theorem poll_window_schedule (st : PollerState) (t : Int) (m : List (Nat × Bool)) :
    ((run_cycle st t m).big_scan = true ↔ t - st.prev_big_scan > 10800) ∧
    (run_cycle st t m).since =
      (if t - st.prev_big_scan > 10800 then st.prev_big_scan - 32400
       else st.prev_req_time - 240) := by
  have hiff : st.prev_big_scan + 10800 < t ↔ t - st.prev_big_scan > 10800 := by
    constructor <;> (intro hlt; omega)
  constructor
  · unfold run_cycle
    dsimp only
    rw [decide_eq_true_iff]
    exact hiff
  · unfold run_cycle
    dsimp only
    by_cases h : st.prev_big_scan + 10800 < t
    · rw [if_pos h, if_pos (hiff.mp h)]
    · rw [if_neg h, if_neg (fun hx => h (hiff.mpr hx))]

/-- Claim C8 (amended): a ledger entry is created on the first incomplete
observation (count 0 becomes 1) and incremented on each incomplete
observation; but no entry is ever discarded — neither the item completing nor
a wide rescan lowers any counter, and the ledger survives every cycle for the
life of the process. (The claim's discard-on-completion / reset-on-rescan
behaviour does not exist in the code: see the counterexample.) -/
theorem retry_ledger_lifecycle (st : PollerState) (t : Int) (sid : Nat)
    (st2 : PollerState) (t2 : Int) (m : List (Nat × Bool)) (j : Nat)
    (hseen : sid ∉ st.seen_series) :
    psCount ((run_cycle st t [(sid, false)]).state.pending_series) sid
      = psCount st.pending_series sid + 1 ∧
    psCount st2.pending_series j ≤ psCount ((run_cycle st2 t2 m).state.pending_series) j := by
  constructor
  · rw [run_cycle_pending, List.foldl_cons, List.foldl_nil,
        process_one_incomplete ⟨st.seen_series, [], st.pending_series, false⟩ sid hseen]
    exact psCount_psSet_self st.pending_series sid _
  · rw [run_cycle_pending]
    exact psCount_le_foldl m ⟨st2.seen_series, [], st2.pending_series, false⟩ j

theorem retry_ledger_lifecycle_witness :
    psCount ((run_cycle ⟨[], 0, 0, []⟩ 100 [(7, false)]).state.pending_series) 7
      = psCount ([] : List (Nat × Nat)) 7 + 1 ∧
    psCount ([(7, 1)] : List (Nat × Nat)) 7
      ≤ psCount ((run_cycle ⟨[(7, 1)], 0, 0, []⟩ 20000 []).state.pending_series) 7 :=
  retry_ledger_lifecycle ⟨[], 0, 0, []⟩ 100 7 ⟨[(7, 1)], 0, 0, []⟩ 20000 [] 7 (by decide)

/-- Counterexample to claim C8 as stated: starting empty, one routine cycle
observing series 7 incomplete creates the entry `(7, 1)`; the next cycle is a
wide rescan, yet afterwards the ledger still holds `(7, 1)` — it is not
discarded and not empty; and a further cycle in which series 7 completes
(fully received, processed) still leaves `(7, 1)` in the ledger. -/
theorem retry_ledger_not_cleared_cex :
    (run_cycle ((run_cycle ⟨[], 0, 0, []⟩ 100 [(7, false)]).state) 20000 []).big_scan = true ∧
    (run_cycle ((run_cycle ⟨[], 0, 0, []⟩ 100 [(7, false)]).state) 20000
      []).state.pending_series = [(7, 1)] ∧
    (run_cycle ((run_cycle ⟨[], 0, 0, []⟩ 100 [(7, false)]).state) 200
      [(7, true)]).state.pending_series = [(7, 1)] := by
  decide

/-- Claim C9 (amended): the persisted cursor record is loaded at startup —
defaults `(now − 2 h, ∅)` when `poller.state` is absent, per-key overrides
when present — and is written exactly once, at process termination (the
`finally` block), recording `prev_big_scan` and `seen_series`; it is not
written after wide rescans (see the counterexample). -/
theorem cursor_persistence (now : Int) (l : LoadedState) (st : PollerState)
    (cycles : List (Int × List (Nat × Bool))) :
    init_state now none = ⟨now - 7200, []⟩ ∧
    init_state now (some l) = ⟨l.last_poll.getD (now - 7200), l.seen_series.getD []⟩ ∧
    run_state_writes st cycles =
      [⟨(run_cycles st cycles).prev_big_scan, (run_cycles st cycles).seen_series⟩] :=
  ⟨rfl, rfl, rfl⟩

/-- Counterexample to claim C9 as stated: in a run whose first cycle is a wide
rescan and which then continues with another cycle, the only write to
`poller.state` is the single shutdown dump — nothing is saved at the wide
rescan itself, so "saved after every wide rescan" fails. -/
theorem cursor_not_saved_on_rescan_cex :
    (run_cycle ⟨[], 0, 50, []⟩ 20000 []).big_scan = true ∧
    run_state_writes ⟨[], 0, 50, []⟩ [(20000, []), (20100, [])] = [⟨20000, []⟩] := by
  decide

end Nipa
